import Mathlib

/-!
Verification of the content-addressed document ingestion and retrieval
pipeline of a small document-repository web application.

The Python source keeps its documents in a SQLite table; here the table is
a Lean list of rows and every database function becomes a pure Lean
function from the old store to a result and (where it mutates) a new store.
Timestamps are natural numbers, byte sequences are lists of naturals below
256, and the SHA-256 hash used for content fingerprints is implemented
bit-faithfully over the UTF-8 encoding of the text, producing the usual
lowercase hexadecimal digest string.
-/

/-! ## Hasher: SHA-256 over the UTF-8 encoding, hex digest -/

/-- 2^32, the word modulus of SHA-256. -/
def w32 : Nat := 4294967296

/-- Right rotation of a 32-bit word by `n` places. -/
def rotr (n x : Nat) : Nat := ((x >>> n) + (x <<< (32 - n))) % w32

/-- The 64 SHA-256 round constants. -/
def sha256K : List Nat :=
  [1116352408, 1899447441, 3049323471, 3921009573, 961987163,
   1508970993, 2453635748, 2870763221, 3624381080, 310598401,
   607225278, 1426881987, 1925078388, 2162078206, 2614888103,
   3248222580, 3835390401, 4022224774, 264347078, 604807628,
   770255983, 1249150122, 1555081692, 1996064986, 2554220882,
   2821834349, 2952996808, 3210313671, 3336571891, 3584528711,
   113926993, 338241895, 666307205, 773529912, 1294757372,
   1396182291, 1695183700, 1986661051, 2177026350, 2456956037,
   2730485921, 2820302411, 3259730800, 3345764771, 3516065817,
   3600352804, 4094571909, 275423344, 430227734, 506948616,
   659060556, 883997877, 958139571, 1322822218, 1537002063,
   1747873779, 1955562222, 2024104815, 2227730452, 2361852424,
   2428436474, 2756734187, 3204031479, 3329325298]

/-- Big-endian byte expansion of `n` on `k` bytes. -/
def beBytes (k n : Nat) : List Nat :=
  (List.range k).map (fun i => (n >>> (8 * (k - 1 - i))) % 256)

/-- SHA-256 padding: append `0x80`, zero bytes to 56 mod 64, then the
bit length on 8 big-endian bytes. -/
def sha256Pad (msg : List Nat) : List Nat :=
  let zeros := (64 + 56 - (msg.length + 1) % 64) % 64
  msg ++ [0x80] ++ List.replicate zeros 0 ++ beBytes 8 (msg.length * 8)

/-- Split a list whose length is a multiple of `s` into chunks of `s`
elements. -/
def chunks (s : Nat) (l : List Nat) : List (List Nat) :=
  (List.range (l.length / s)).map (fun i => (l.drop (s * i)).take s)

/-- Big-endian 32-bit word from four bytes. -/
def bytesToWord (bs : List Nat) : Nat := bs.foldl (fun a b => a * 256 + b) 0

def ssig0 (x : Nat) : Nat := (rotr 7 x) ^^^ (rotr 18 x) ^^^ (x >>> 3)
def ssig1 (x : Nat) : Nat := (rotr 17 x) ^^^ (rotr 19 x) ^^^ (x >>> 10)
def bsig0 (x : Nat) : Nat := (rotr 2 x) ^^^ (rotr 13 x) ^^^ (rotr 22 x)
def bsig1 (x : Nat) : Nat := (rotr 6 x) ^^^ (rotr 11 x) ^^^ (rotr 25 x)
def chFn (x y z : Nat) : Nat := (x &&& y) ^^^ ((x ^^^ 0xffffffff) &&& z)
def majFn (x y z : Nat) : Nat := (x &&& y) ^^^ (x &&& z) ^^^ (y &&& z)

/-- Extend the 16 message words of a block to the 64-entry schedule. -/
def sha256Schedule (w16 : List Nat) : List Nat :=
  (List.range 48).foldl
    (fun w _ =>
      let n := w.length
      w ++ [(ssig1 (w.getD (n - 2) 0) + w.getD (n - 7) 0 +
             ssig0 (w.getD (n - 15) 0) + w.getD (n - 16) 0) % w32])
    w16

/-- The eight working registers of the compression function. -/
structure Sha256State where
  a : Nat
  b : Nat
  c : Nat
  d : Nat
  e : Nat
  f : Nat
  g : Nat
  h : Nat
deriving Repr, DecidableEq

/-- One round of the SHA-256 compression function. -/
def sha256Round (s : Sha256State) (kw : Nat × Nat) : Sha256State :=
  let t1 := (s.h + bsig1 s.e + chFn s.e s.f s.g + kw.1 + kw.2) % w32
  let t2 := (bsig0 s.a + majFn s.a s.b s.c) % w32
  ⟨(t1 + t2) % w32, s.a, s.b, s.c, (s.d + t1) % w32, s.e, s.f, s.g⟩

/-- Process one 64-byte block, updating the chaining state. -/
def sha256Block (s : Sha256State) (block : List Nat) : Sha256State :=
  let ws := sha256Schedule ((chunks 4 block).map bytesToWord)
  let t := (sha256K.zip ws).foldl sha256Round s
  ⟨(s.a + t.a) % w32, (s.b + t.b) % w32, (s.c + t.c) % w32, (s.d + t.d) % w32,
   (s.e + t.e) % w32, (s.f + t.f) % w32, (s.g + t.g) % w32, (s.h + t.h) % w32⟩

/-- The SHA-256 initial hash value. -/
def sha256Init : Sha256State :=
  ⟨1779033703, 3144134277, 1013904242, 2773480762,
   1359893119, 2600822924, 528734635, 1541459225⟩

/-- Hexadecimal digit character for `n < 16` (lowercase, as Python's
`hexdigest`). -/
def hexDigit (n : Nat) : Char :=
  if n < 10 then Char.ofNat (48 + n) else Char.ofNat (87 + n)

/-- Eight-character hexadecimal rendering of a 32-bit word. -/
def wordHex (n : Nat) : List Char :=
  (List.range 8).map (fun i => hexDigit ((n >>> (4 * (7 - i))) % 16))

/-- SHA-256 of a byte sequence, as the 64-character lowercase hex digest. -/
def sha256Hex (msg : List Nat) : String :=
  let st := ((chunks 64 (sha256Pad msg))).foldl sha256Block sha256Init
  String.mk ([st.a, st.b, st.c, st.d, st.e, st.f, st.g, st.h].flatMap wordHex)

/-- UTF-8 encoding of one character, as Python's `str.encode('utf-8')`
produces for each code point. -/
def utf8Char (c : Char) : List Nat :=
  let n := c.toNat
  if n < 0x80 then [n]
  else if n < 0x800 then [0xc0 + n / 64, 0x80 + n % 64]
  else if n < 0x10000 then
    [0xe0 + n / 4096, 0x80 + n / 64 % 64, 0x80 + n % 64]
  else
    [0xf0 + n / 262144, 0x80 + n / 4096 % 64, 0x80 + n / 64 % 64,
     0x80 + n % 64]

/-- UTF-8 encoding of a character sequence. -/
def utf8Encode (cs : List Char) : List Nat := cs.flatMap utf8Char

/-- `calculate_content_hash` (database.py): SHA-256 hex digest of the
UTF-8 encoding of the content. -/
def calculate_content_hash (content : String) : String :=
  sha256Hex (utf8Encode content.data)

/-! ## Document store -/

/-- One row of the `documents` table. -/
structure DocRow where
  id : Nat
  filename : String
  original_filename : String
  file_path : String
  file_type : String
  content : String
  content_hash : String
  upload_date : Nat
deriving Repr, DecidableEq

/-- The `documents` table: rows in rowid (insertion) order, plus the next
`AUTOINCREMENT` id. -/
structure DocDb where
  rows : List DocRow
  next_id : Nat
deriving Repr, DecidableEq

/-- Result of `check_duplicate`: either a reference to the existing row or
the freshly computed hash. -/
inductive DupResult where
  | duplicate (id : Nat) (original_filename : String) (upload_date : Nat)
  | fresh (content_hash : String)
deriving Repr, DecidableEq

/-- `check_duplicate` (database.py): hash the content, return the first
stored row with that `content_hash` if any, else the hash itself.  It only
reads the store. -/
def check_duplicate (content : String) (db : DocDb) : DupResult :=
  let content_hash := calculate_content_hash content
  match db.rows.find? (fun r => r.content_hash == content_hash) with
  | some r => .duplicate r.id r.original_filename r.upload_date
  | none => .fresh content_hash

/-- `insert_document` (database.py): append a row with the next
auto-increment id; `upload_date` is the insertion time (SQLite's
`CURRENT_TIMESTAMP`), passed explicitly here.  Returns the new id. -/
def insert_document (filename original_filename file_path file_type
    content content_hash : String) (now : Nat) (db : DocDb) :
    Nat × DocDb :=
  (db.next_id,
   ⟨db.rows ++ [⟨db.next_id, filename, original_filename, file_path,
                file_type, content, content_hash, now⟩],
    db.next_id + 1⟩)

/-! ### SQLite `LIKE` semantics

`search_documents` filters with `content LIKE '%' || query || '%'`.
SQLite's default `LIKE` treats `%` as "any sequence of characters", `_` as
"any single character", and compares the remaining characters
case-insensitively for the ASCII letters A-Z only. -/

/-- SQLite's `LIKE` case folding: ASCII upper-case letters to lower case,
all other characters unchanged. -/
def likeFold (c : Char) : Char :=
  if 'A' ≤ c && c ≤ 'Z' then Char.ofNat (c.toNat + 32) else c

/-- Fuelled `LIKE` matcher; the fuel only serves structural recursion and
`pattern.length + s.length + 1` is always enough. -/
def likeMatchF : Nat → List Char → List Char → Bool
  | 0, _, _ => false
  | fuel + 1, pat, s =>
    match pat, s with
    | [], [] => true
    | [], _ :: _ => false
    | '%' :: p, s =>
      likeMatchF fuel p s ||
        (match s with
         | [] => false
         | _ :: s2 => likeMatchF fuel ('%' :: p) s2)
    | '_' :: p, s =>
      (match s with
       | [] => false
       | _ :: s2 => likeMatchF fuel p s2)
    | c :: p, s =>
      (match s with
       | [] => false
       | d :: s2 => (likeFold c == likeFold d) && likeMatchF fuel p s2)

/-- SQLite `LIKE` pattern match. -/
def likeMatch (pat s : List Char) : Bool :=
  likeMatchF (pat.length + s.length + 1) pat s

/-- `content LIKE '%' || query || '%'` for the given query and content. -/
def sqlite_like_contains (query content : String) : Bool :=
  likeMatch ('%' :: (query.data ++ ['%'])) content.data

/-- One row of a `search_documents` result: the selected columns plus the
200-character preview. -/
structure SearchRow where
  id : Nat
  original_filename : String
  file_type : String
  upload_date : Nat
  preview : String
deriving Repr, DecidableEq

/-- The `SELECT` projection of `search_documents`, including
`substr(content, 1, 200)`. -/
def toSearchRow (r : DocRow) : SearchRow :=
  ⟨r.id, r.original_filename, r.file_type, r.upload_date,
   String.mk (r.content.data.take 200)⟩

/-- `ORDER BY upload_date DESC` on search rows. -/
def dateDesc (a b : SearchRow) : Prop := b.upload_date ≤ a.upload_date

instance : DecidableRel dateDesc := fun _ _ => Nat.decLe _ _

instance : IsTotal SearchRow dateDesc := ⟨fun _ _ => Nat.le_total _ _⟩

instance : IsTrans SearchRow dateDesc :=
  ⟨fun _ _ _ hab hbc => le_trans hbc hab⟩

/-- `search_documents` (database.py): rows whose content matches
`LIKE '%query%'`, projected to the selected columns with the preview,
ordered by upload date descending. -/
def search_documents (query : String) (db : DocDb) : List SearchRow :=
  List.insertionSort dateDesc
    ((db.rows.filter (fun r => sqlite_like_contains query r.content)).map
      toSearchRow)

/-- One row of a `get_all_documents` result. -/
structure DocSummary where
  id : Nat
  original_filename : String
  file_type : String
  upload_date : Nat
deriving Repr, DecidableEq

/-- `ORDER BY upload_date DESC` on summaries. -/
def dateDescS (a b : DocSummary) : Prop := b.upload_date ≤ a.upload_date

instance : DecidableRel dateDescS := fun _ _ => Nat.decLe _ _

/-- `get_all_documents` (database.py): all rows, summary columns only,
newest first. -/
def get_all_documents (db : DocDb) : List DocSummary :=
  List.insertionSort dateDescS
    (db.rows.map (fun r => ⟨r.id, r.original_filename, r.file_type,
                            r.upload_date⟩))

/-- Result of `delete_document`. -/
inductive DeleteResult where
  | ok (file_path : String)
  | notFound
deriving Repr, DecidableEq

/-- `delete_document` (database.py): look up the row's `file_path`; if
present, delete every row with that id and return the path, else report
not found and leave the table untouched. -/
def delete_document (doc_id : Nat) (db : DocDb) : DeleteResult × DocDb :=
  match db.rows.find? (fun r => r.id == doc_id) with
  | some r =>
    (.ok r.file_path, ⟨db.rows.filter (fun r => !(r.id == doc_id)), db.next_id⟩)
  | none => (.notFound, db)

/-! ## Users -/

/-- One row of the `users` table. -/
structure UserRow where
  id : Nat
  username : String
  password_hash : String
  role : String
  created_at : Nat
deriving Repr, DecidableEq

/-- Result of a user-management operation: success or an error message. -/
inductive UserOpResult where
  | ok
  | err (msg : String)
deriving Repr, DecidableEq

/-- Number of rows with role `admin`. -/
def adminCount (users : List UserRow) : Nat :=
  (users.filter (fun u => u.role == "admin")).length

/-- `delete_user` (database.py): count the admins, look the target up by
id; missing target or the last admin are errors that leave the table
unchanged, otherwise every row with the target id is deleted. -/
def delete_user (user_id : Nat) (users : List UserRow) :
    UserOpResult × List UserRow :=
  let admin_count := adminCount users
  match users.find? (fun u => u.id == user_id) with
  | none => (.err "用戶不存在", users)
  | some u =>
    if u.role == "admin" && admin_count ≤ 1 then
      (.err "無法刪除最後一個管理員帳號", users)
    else
      (.ok, users.filter (fun v => !(v.id == user_id)))

/-- The `/api/users/<id>` DELETE route (app.py): after the
`admin_required` gate, a request targeting the caller's own id is rejected
before the database-level delete is reached. -/
def api_delete_user (session_user_id target : Nat)
    (users : List UserRow) : UserOpResult × List UserRow :=
  match users.find? (fun u => u.id == session_user_id) with
  | none => (.err "需要管理員權限", users)
  | some caller =>
    if caller.role == "admin" then
      if target == session_user_id then
        (.err "無法刪除自己的帳號", users)
      else
        delete_user target users
    else
      (.err "需要管理員權限", users)

/-! ## Startup migration -/

/-- The schema-relevant state of a pre-existing database file: whether the
`documents` table exists, whether it already has the `content_hash`
column, and its rows (with `content_hash = \x22\x22` standing for the column
being absent). -/
structure MigRow where
  id : Nat
  content : String
  content_hash : String
deriving Repr, DecidableEq

structure MigState where
  tableExists : Bool
  hasHashCol : Bool
  rows : List MigRow
deriving Repr, DecidableEq

/-- `migrate_existing_database` (database.py): no table or an existing
`content_hash` column means nothing to do; otherwise add the column and
set each row's hash to the hash of its content.  Returns whether a
migration was performed. -/
def migrate_existing_database (s : MigState) : Bool × MigState :=
  if !s.tableExists then (false, s)
  else if s.hasHashCol then (false, s)
  else
    (true,
     { s with
       hasHashCol := true,
       rows := s.rows.map (fun r =>
         { r with content_hash := calculate_content_hash r.content }) })

/-! ## Ingestion orchestrator (`upload_files`, app.py)

Each item of a request is a file together with the data the environment
supplies for it: the user-supplied filename, the random token used for the
stored name, the outcome of the external text extraction (`none` when the
extractor raised), and the upload time.  `secure_filename` is an external
sanitizer and is passed in as a function. -/

structure UploadFile where
  filename : String
  uuid : String
  extract_result : Option String
  time : Nat
deriving Repr, DecidableEq

/-- `allowed_file` (app.py): a dot is present and the lower-cased part
after the last dot is an allowed extension. -/
def ALLOWED_EXTENSIONS : List String :=
  ["pdf", "doc", "docx", "xls", "xlsx", "ppt", "pptx"]

/-- ASCII lower-casing, as Python's `str.lower` acts on ASCII letters. -/
def asciiLower (s : String) : String :=
  String.mk (s.data.map likeFold)

/-- The part of `s` after its last dot (`rsplit('.', 1)[1]`). -/
def extAfterLastDot (s : String) : String :=
  String.mk ((s.data.reverse.takeWhile (fun c => !(c == '.'))).reverse)

def allowed_file (filename : String) : Bool :=
  filename.data.contains '.' &&
    ALLOWED_EXTENSIONS.contains (asciiLower (extAfterLastDot filename))

/-- `extract_text_from_file` (app.py): the extractor's text, or the empty
string when the extractor raised. -/
def extract_text_from_file (extract_result : Option String) : String :=
  extract_result.getD ""

structure UploadedEntry where
  id : Nat
  filename : String
deriving Repr, DecidableEq

structure SkippedEntry where
  filename : String
  reason : String
  existing_filename : String
  existing_upload_date : Nat
deriving Repr, DecidableEq

structure ErrorEntry where
  filename : String
  error : String
deriving Repr, DecidableEq

/-- The store plus the three outcome lists accumulated over a batch. -/
structure UploadState where
  db : DocDb
  uploaded : List UploadedEntry
  skipped : List SkippedEntry
  errors : List ErrorEntry
deriving Repr, DecidableEq

/-- One iteration of the `upload_files` loop.  An empty filename is
silently skipped (`continue`); a disallowed type gets an error entry; an
allowed file is saved, extracted, checked for duplication and either
inserted or reported as skipped.  A sanitized name with no dot makes
`rsplit('.', 1)[1]` raise, landing in the per-item `except` branch. -/
def process_file (sec : String → String) (st : UploadState)
    (f : UploadFile) : UploadState :=
  if f.filename == "" then st
  else if allowed_file f.filename then
    let original_filename := sec f.filename
    if original_filename.data.contains '.' then
      let file_extension := asciiLower (extAfterLastDot original_filename)
      let unique_filename := f.uuid ++ "." ++ file_extension
      let file_path := "uploads/" ++ unique_filename
      let content := extract_text_from_file f.extract_result
      match check_duplicate content st.db with
      | .duplicate _ ename edate =>
        { st with
          skipped := st.skipped ++
            [⟨original_filename, "duplicate", ename, edate⟩] }
      | .fresh content_hash =>
        let (doc_id, db2) := insert_document unique_filename
          original_filename file_path file_extension content content_hash
          f.time st.db
        { st with
          db := db2,
          uploaded := st.uploaded ++ [⟨doc_id, original_filename⟩] }
    else
      { st with errors := st.errors ++ [⟨f.filename, "exception"⟩] }
  else
    { st with
      errors := st.errors ++ [⟨f.filename, "File type not allowed"⟩] }

/-- `upload_files` (app.py): fold the loop body over the batch, starting
from the current store and empty outcome lists. -/
def upload_files (sec : String → String) (files : List UploadFile)
    (db : DocDb) : UploadState :=
  files.foldl (process_file sec) ⟨db, [], [], []⟩

/-! ## The uniqueness invariant -/

/-- No two live rows share a `content_hash`. -/
def NoDupHash (db : DocDb) : Prop :=
  db.rows.Pairwise (fun a b => a.content_hash ≠ b.content_hash)

/-- A store holding one document whose text is "Hello World". -/
def dbHello : DocDb :=
  ⟨[⟨1, "st.pdf", "orig.pdf", "uploads/st.pdf", "pdf", "Hello World",
     "h1", 5⟩], 2⟩

/-- A store already holding a document whose extraction produced empty
text (so its fingerprint is the hash of the empty string). -/
def dbEmptyContent : DocDb :=
  ⟨[⟨1, "u0.pdf", "first.pdf", "uploads/u0.pdf", "pdf", "",
     calculate_content_hash "", 10⟩], 2⟩

set_option maxRecDepth 10000

/-! ## Helper lemmas -/

lemma wordHex_length (n : Nat) : (wordHex n).length = 8 := by
  simp [wordHex]

lemma sha256Hex_length (msg : List Nat) : (sha256Hex msg).length = 64 := by
  show (String.mk _).length = 64
  simp [sha256Hex, String.length, wordHex_length]

/-! ## Claim theorems -/

/-- C3: `calculate_content_hash` is a pure function of the UTF-8 byte
sequence of its input: byte-identical inputs hash identically, the digest
is always the 64 hex characters of a 256-bit hash, and byte-distinct
inputs can be observed to hash differently (here on two texts differing in
one character).  Purity itself is structural: the Lean embedding is a
function touching no state, matching the Python function, which reads and
writes nothing outside its argument. -/
theorem hasher_pure_function_of_bytes :
    (∀ s1 s2 : String, utf8Encode s1.data = utf8Encode s2.data →
      calculate_content_hash s1 = calculate_content_hash s2) ∧
    (∀ s : String, (calculate_content_hash s).length = 64) ∧
    calculate_content_hash "hello world" ≠ calculate_content_hash "hello_world" := by
  refine ⟨fun s1 s2 h => ?_, fun s => sha256Hex_length _, by decide⟩
  simp only [calculate_content_hash, h]

/-- Witness for C3 at a concrete input. -/
theorem hasher_pure_function_of_bytes_witness :
    calculate_content_hash "report" = calculate_content_hash "report" :=
  hasher_pure_function_of_bytes.1 "report" "report" rfl

/-- C4: `check_duplicate` hashes the text; when some stored row carries
that hash it returns a Duplicate result with that row's id, original
filename and upload date, and otherwise a Fresh result carrying exactly
the computed hash.  The check itself never mutates the store: its
embedding consumes the store and returns only a `DupResult`, matching the
Python function, which only issues a `SELECT`. -/
theorem check_duplicate_contract :
    ∀ (content : String) (db : DocDb),
      ((∃ r ∈ db.rows, r.content_hash = calculate_content_hash content) →
        ∃ r ∈ db.rows, r.content_hash = calculate_content_hash content ∧
          check_duplicate content db =
            .duplicate r.id r.original_filename r.upload_date) ∧
      ((∀ r ∈ db.rows, r.content_hash ≠ calculate_content_hash content) →
        check_duplicate content db = .fresh (calculate_content_hash content)) := by
  intro content db
  constructor
  · intro h
    cases hf : db.rows.find?
        (fun r => r.content_hash == calculate_content_hash content) with
    | none =>
      rw [List.find?_eq_none] at hf
      obtain ⟨r, hr, hh⟩ := h
      exact absurd (by simpa using hh) (by simpa using hf r hr)
    | some r =>
      refine ⟨r, List.mem_of_find?_eq_some hf, ?_, ?_⟩
      · simpa using List.find?_some hf
      · simp [check_duplicate, hf]
  · intro h
    have hf : db.rows.find?
        (fun r => r.content_hash == calculate_content_hash content) = none := by
      rw [List.find?_eq_none]
      intro r hr
      simpa using h r hr
    simp [check_duplicate, hf]

/-- Witness for C4 at a concrete input. -/
theorem check_duplicate_contract_witness :
    check_duplicate "q" ⟨[], 5⟩ = .fresh (calculate_content_hash "q") :=
  (check_duplicate_contract "q" ⟨[], 5⟩).2 (by simp)

/-- C10: a delete-user request whose target equals the caller's own id is
answered with an error and leaves the user table unchanged; when the
caller is an admin the error is the dedicated self-deletion message,
produced before the database-level `delete_user` can run. -/
theorem self_delete_rejected :
    ∀ (users : List UserRow) (sid : Nat),
      (api_delete_user sid sid users).2 = users ∧
      (api_delete_user sid sid users).1 ≠ .ok ∧
      (∀ caller, users.find? (fun u => u.id == sid) = some caller →
        caller.role = "admin" →
        api_delete_user sid sid users = (.err "無法刪除自己的帳號", users)) := by
  intro users sid
  cases hf : users.find? (fun u => u.id == sid) with
  | none =>
    simp [api_delete_user, hf]
  | some caller =>
    by_cases hr : caller.role = "admin"
    · simp [api_delete_user, hf, hr]
    · refine ⟨?_, ?_, ?_⟩
      · simp [api_delete_user, hf, hr]
      · simp [api_delete_user, hf, hr]
      · intro c hc hcr
        cases hc
        exact absurd hcr hr

/-- Witness for C10 at a concrete input. -/
theorem self_delete_rejected_witness :
    api_delete_user 1 1 [⟨1, "root", "pw", "admin", 0⟩] =
      (.err "無法刪除自己的帳號", [⟨1, "root", "pw", "admin", 0⟩]) :=
  (self_delete_rejected [⟨1, "root", "pw", "admin", 0⟩] 1).2.2
    ⟨1, "root", "pw", "admin", 0⟩ (by decide) rfl


/-! ## Generic key-uniqueness helpers -/

lemma find?_key_eq {β : Type} (key : β → Nat) (l : List β) (b : β) (k : Nat)
    (h : (l.map key).Nodup) (hb : b ∈ l) (hk : key b = k) :
    l.find? (fun x => key x == k) = some b := by
  induction l with
  | nil => cases hb
  | cons x xs ih =>
    rw [List.map_cons, List.nodup_cons] at h
    obtain ⟨hx, hxs⟩ := h
    by_cases hxk : key x = k
    · have hbx : b = x := by
        rcases List.mem_cons.1 hb with h' | h' 
        · exact h'
        · exact absurd (List.mem_map.2 ⟨b, h', hk.trans hxk.symm⟩) hx
      rw [List.find?_cons, hbx]
      simp [hxk]
    · have hb' : b ∈ xs := by
        rcases List.mem_cons.1 hb with h' | h' 
        · exact absurd (h' ▸ hk) hxk
        · exact h'
      rw [List.find?_cons]
      have hfx : (key x == k) = false := by simpa using hxk
      rw [hfx]
      exact ih hxs hb'

lemma filter_key_ne_eq_erase {β : Type} [DecidableEq β] (key : β → Nat)
    (l : List β) (b : β) (h : (l.map key).Nodup) (hb : b ∈ l) :
    l.filter (fun x => !(key x == key b)) = l.erase b := by
  induction l with
  | nil => cases hb
  | cons x xs ih =>
    rw [List.map_cons, List.nodup_cons] at h
    obtain ⟨hx, hxs⟩ := h
    by_cases hxk : key x = key b
    · have hbx : b = x := by
        rcases List.mem_cons.1 hb with h' | h' 
        · exact h'
        · exact absurd (List.mem_map.2 ⟨b, h', hxk.symm⟩) hx
      subst hbx
      rw [List.erase_cons_head, List.filter_cons]
      simp only [beq_self_eq_true, Bool.not_true, if_false]
      apply List.filter_eq_self.2
      intro a ha
      have : key a ≠ key b := by
        intro he
        exact hx (he ▸ List.mem_map.2 ⟨a, ha, rfl⟩)
      simpa using this
    · have hb' : b ∈ xs := by
        rcases List.mem_cons.1 hb with h' | h' 
        · exact absurd (h' ▸ rfl) hxk
        · exact h'
      have hxb : ¬ (x == b) := by
        simp only [beq_iff_eq]
        intro he
        exact hxk (he ▸ rfl)
      have hfx : (!(key x == key b)) = true := by simpa using hxk
      rw [List.erase_cons_tail hxb, List.filter_cons, hfx]
      simp only [if_true]
      rw [ih hxs hb']

lemma countP_key_le_one {β : Type} (key : β → Nat) (l : List β) (k : Nat)
    (h : (l.map key).Nodup) : l.countP (fun x => key x == k) ≤ 1 := by
  induction l with
  | nil => simp
  | cons x xs ih =>
    rw [List.map_cons, List.nodup_cons] at h
    obtain ⟨hx, hxs⟩ := h
    rw [List.countP_cons]
    by_cases hxk : key x = k
    · have hzero : xs.countP (fun x => key x == k) = 0 := by
        rw [List.countP_eq_zero]
        intro a ha hak
        exact hx (hxk ▸ (by simpa using hak : key a = k) ▸
          List.mem_map.2 ⟨a, ha, rfl⟩)
      simp [hxk, hzero]
    · simpa [hxk] using ih hxs

/-- C5: deleting a present document id succeeds, returns the stored file
path of that document, and removes exactly that row; deleting an absent id
(in particular, deleting the same id a second time) reports not-found and
leaves the store completely unchanged. -/
theorem delete_document_semantics :
    ∀ (db : DocDb) (doc_id : Nat),
      ((db.rows.map (fun r => r.id)).Nodup →
        ∀ r ∈ db.rows, r.id = doc_id →
          delete_document doc_id db =
            (.ok r.file_path, ⟨db.rows.erase r, db.next_id⟩)) ∧
      ((∀ r ∈ db.rows, r.id ≠ doc_id) →
        delete_document doc_id db = (.notFound, db)) ∧
      (∀ res1 db1, delete_document doc_id db = (res1, db1) →
        delete_document doc_id db1 = (.notFound, db1)) := by
  intro db doc_id
  refine ⟨?_, ?_, ?_⟩
  · intro hnd r hr hid
    have hf : db.rows.find? (fun x => x.id == doc_id) = some r := by
      simpa using find?_key_eq (fun x => x.id) db.rows r doc_id hnd hr hid
    have herase : db.rows.filter (fun x => !(x.id == doc_id)) =
        db.rows.erase r := by
      simpa [hid] using filter_key_ne_eq_erase (fun x => x.id) db.rows r hnd hr
    simp only [delete_document, hf, herase]
  · intro h
    have hf : db.rows.find? (fun r => r.id == doc_id) = none := by
      rw [List.find?_eq_none]
      intro r hr
      simpa using h r hr
    simp [delete_document, hf]
  · intro res1 db1 h1
    cases hf : db.rows.find? (fun r => r.id == doc_id) with
    | none =>
      simp only [delete_document, hf] at h1
      cases h1
      simp [delete_document, hf]
    | some r =>
      simp only [delete_document, hf] at h1
      cases h1
      have hf2 : (db.rows.filter (fun r => !(r.id == doc_id))).find?
          (fun r => r.id == doc_id) = none := by
        rw [List.find?_eq_none]
        intro x hx
        have := (List.mem_filter.1 hx).2
        simpa using this
      simp [delete_document, hf2]

/-- Witness for C5 at a concrete store. -/
theorem delete_document_semantics_witness :
    delete_document 1 ⟨[⟨1, "s", "o", "uploads/s", "pdf", "T", "h", 3⟩], 2⟩ =
      (.ok "uploads/s", ⟨[], 2⟩) :=
  (delete_document_semantics ⟨[⟨1, "s", "o", "uploads/s", "pdf", "T", "h", 3⟩], 2⟩ 1).1
    (by decide) (⟨1, "s", "o", "uploads/s", "pdf", "T", "h", 3⟩ : DocRow)
    (by decide) rfl

/-- C6: on a pre-existing documents table that lacks the `content_hash`
column, one run of the startup migration backfills every row's hash from
its content; a second run finds the column present, changes nothing, and
reports that no migration was performed — so any number of further runs
leaves exactly the values the first run produced. -/
theorem migration_idempotent :
    ∀ s : MigState, s.tableExists = true → s.hasHashCol = false →
      (migrate_existing_database s).1 = true ∧
      (migrate_existing_database s).2.rows =
        s.rows.map (fun r =>
          { r with content_hash := calculate_content_hash r.content }) ∧
      migrate_existing_database (migrate_existing_database s).2 =
        (false, (migrate_existing_database s).2) := by
  intro s h1 h2
  refine ⟨?_, ?_, ?_⟩ <;> simp [migrate_existing_database, h1, h2]

/-- Witness for C6 at a concrete unmigrated store. -/
theorem migration_idempotent_witness :
    (migrate_existing_database ⟨true, false, [⟨1, "alpha", ""⟩]⟩).1 = true ∧
    (migrate_existing_database ⟨true, false, [⟨1, "alpha", ""⟩]⟩).2.rows =
      ([⟨1, "alpha", ""⟩] : List MigRow).map (fun r =>
        { r with content_hash := calculate_content_hash r.content }) ∧
    migrate_existing_database
        (migrate_existing_database ⟨true, false, [⟨1, "alpha", ""⟩]⟩).2 =
      (false, (migrate_existing_database ⟨true, false, [⟨1, "alpha", ""⟩]⟩).2) :=
  migration_idempotent ⟨true, false, [⟨1, "alpha", ""⟩]⟩ rfl rfl

/-- C7: when exactly one user has role admin, `delete_user` on that user's
id fails with the dedicated last-admin error and removes no row; more
generally (given the primary-key uniqueness of user ids) no single
`delete_user` call can take a table with at least one admin to a table
with none, so no sequence of deletes empties the admin set. -/
theorem admin_never_emptied :
    (∀ (users : List UserRow) (u : UserRow),
      (users.map (fun x => x.id)).Nodup → u ∈ users → u.role = "admin" →
      adminCount users = 1 →
      delete_user u.id users =
        (.err "無法刪除最後一個管理員帳號", users)) ∧
    (∀ (users : List UserRow) (uid : Nat),
      (users.map (fun x => x.id)).Nodup →
      0 < adminCount users →
      0 < adminCount (delete_user uid users).2) := by
  constructor
  · intro users u hnd hu hrole hcount
    have hf : users.find? (fun x => x.id == u.id) = some u := by
      simpa using find?_key_eq (fun x => x.id) users u u.id hnd hu rfl
    simp [delete_user, hf, hrole, hcount]
  · intro users uid hnd hpos
    cases hf : users.find? (fun x => x.id == uid) with
    | none => simpa [delete_user, hf] using hpos
    | some u =>
      by_cases hcond :
          (u.role == "admin" && decide (adminCount users ≤ 1)) = true
      · simpa [delete_user, hf, hcond] using hpos
      · have hres : (delete_user uid users).2 =
            users.filter (fun v => !(v.id == uid)) := by
          simp [delete_user, hf, hcond]
        rw [hres]
        have hid : u.id = uid := by simpa using List.find?_some hf
        have hmem : u ∈ users := List.mem_of_find?_eq_some hf
        -- split the admin count along `id == uid`
        have hsplit : adminCount users =
            (users.filter (fun v => v.role == "admin")).countP
              (fun v => v.id == uid) +
            (users.filter (fun v => v.role == "admin")).countP
              (fun v => !(v.id == uid)) := by
          have := List.length_eq_countP_add_countP
            (p := fun v : UserRow => v.id == uid)
            (users.filter (fun v => v.role == "admin"))
          simpa [adminCount] using this
        have hle1 : (users.filter (fun v => v.role == "admin")).countP
            (fun v => v.id == uid) ≤ 1 := by
          refine le_trans (List.Sublist.countP_le _ (List.filter_sublist _)) ?_
          exact countP_key_le_one (fun x => x.id) users uid hnd
        have htarget : adminCount (users.filter (fun v => !(v.id == uid))) =
            (users.filter (fun v => v.role == "admin")).countP
              (fun v => !(v.id == uid)) := by
          simp only [adminCount, ← List.countP_eq_length_filter,
            List.countP_filter]
          congr 1
          funext v
          exact Bool.and_comm _ _
        rw [htarget]
        have hcases : u.role ≠ "admin" ∨ 2 ≤ adminCount users := by
          by_cases hr : u.role = "admin"
          · refine Or.inr ?_
            have hnle : ¬ adminCount users ≤ 1 := by
              intro hle
              exact hcond (by simp [hr, hle])
            omega
          · exact Or.inl hr
        rcases hcases with hr | h2
        · have hzero : (users.filter (fun v => v.role == "admin")).countP
              (fun v => v.id == uid) = 0 := by
            rw [List.countP_eq_zero]
            intro v hv hvid
            have hvmem := (List.mem_filter.1 hv).1
            have hvrole : v.role = "admin" := by
              simpa using (List.mem_filter.1 hv).2
            have hveq : v = u := by
              have hvi : v.id = uid := by simpa using hvid
              exact List.inj_on_of_nodup_map hnd hvmem hmem (by rw [hvi, hid])
            exact hr (hveq ▸ hvrole)
          omega
        · omega

/-- Witness for C7 at a concrete one-admin table. -/
theorem admin_never_emptied_witness :
    delete_user 1 [⟨1, "admin", "pw", "admin", 0⟩] =
      (.err "無法刪除最後一個管理員帳號", [⟨1, "admin", "pw", "admin", 0⟩]) :=
  admin_never_emptied.1 [⟨1, "admin", "pw", "admin", 0⟩]
    ⟨1, "admin", "pw", "admin", 0⟩ (by decide) (by decide) rfl (by decide)

/-! ## Search (C2) -/

/-- C2 counterexample: `search_documents "hello"` returns the document
whose text is "Hello World", although "hello" is not a case-sensitive
literal substring of "Hello World" — SQLite's `LIKE` compares ASCII
letters case-insensitively, so the search is not the case-sensitive
substring filter the claim states. -/
theorem search_case_sensitivity_counterexample :
    search_documents "hello" dbHello =
      [⟨1, "orig.pdf", "pdf", 5, "Hello World"⟩] ∧
    ¬ ("hello".data <:+: "Hello World".data) := by
  constructor
  · decide
  · decide

/-- C2 amended: for every store and query, `search_documents q` returns
exactly the documents whose extracted text matches the SQLite `LIKE`
pattern `%q%` (ASCII-case-insensitive, with `%` and `_` in `q` acting as
wildcards), each result carrying a preview equal to the first 200
characters of its extracted text, ordered by upload date descending. -/
theorem search_documents_characterization :
    ∀ (q : String) (db : DocDb),
      (∀ x, x ∈ search_documents q db ↔
        ∃ r ∈ db.rows, sqlite_like_contains q r.content = true ∧
          x = toSearchRow r) ∧
      (search_documents q db).Sorted dateDesc ∧
      (∀ x ∈ search_documents q db, ∃ r ∈ db.rows,
        x = toSearchRow r ∧
        x.preview = String.mk (r.content.data.take 200)) := by
  intro q db
  have hmem : ∀ x, x ∈ search_documents q db ↔
      ∃ r ∈ db.rows, sqlite_like_contains q r.content = true ∧
        x = toSearchRow r := by
    intro x
    simp only [search_documents, List.mem_insertionSort, List.mem_map,
      List.mem_filter]
    constructor
    · rintro ⟨r, ⟨hr, hq⟩, rfl⟩
      exact ⟨r, hr, hq, rfl⟩
    · rintro ⟨r, hr, hq, rfl⟩
      exact ⟨r, ⟨hr, hq⟩, rfl⟩
  refine ⟨hmem, ?_, ?_⟩
  · exact List.sorted_insertionSort dateDesc _
  · intro x hx
    obtain ⟨r, hr, _, rfl⟩ := (hmem x).1 hx
    exact ⟨r, hr, rfl, rfl⟩

/-- Witness for the amended C2 at a concrete store and query. -/
theorem search_documents_characterization_witness :
    ⟨1, "orig.pdf", "pdf", 5, "Hello World"⟩ ∈ search_documents "hello" dbHello :=
  ((search_documents_characterization "hello" dbHello).1 _).2
    ⟨⟨1, "st.pdf", "orig.pdf", "uploads/st.pdf", "pdf", "Hello World",
      "h1", 5⟩, by decide, by decide, rfl⟩

/-! ## Batch upload validation (C9) -/

/-- C9 counterexample: a batch holding only a file with an empty filename
produces an empty errors list (and empty uploaded and skipped lists): the
loop silently `continue`s instead of reporting a per-item validation
error. -/
theorem empty_filename_counterexample :
    upload_files (fun s => s) [⟨"", "u1", some "text", 7⟩] ⟨[], 1⟩ =
      ⟨⟨[], 1⟩, [], [], []⟩ := by
  decide

/-- C9 amended: a file with a disallowed type produces a per-item
validation-error entry and leaves everything else unchanged, a file with
an empty filename is silently dropped (no entry in any list), and in both
cases processing of the remaining files of the batch continues from the
resulting state. -/
theorem per_item_validation_reporting :
    ∀ (sec : String → String) (st : UploadState) (f : UploadFile),
      (f.filename ≠ "" → allowed_file f.filename = false →
        process_file sec st f =
          { st with errors :=
              st.errors ++ [⟨f.filename, "File type not allowed"⟩] }) ∧
      (f.filename = "" → process_file sec st f = st) ∧
      (∀ (fs : List UploadFile) (db : DocDb),
        upload_files sec (f :: fs) db =
          fs.foldl (process_file sec) (process_file sec ⟨db, [], [], []⟩ f)) := by
  intro sec st f
  refine ⟨?_, ?_, ?_⟩
  · intro h1 h2
    have b1 : (f.filename == "") = false := by simpa using h1
    simp [process_file, b1, h2]
  · intro h1
    simp [process_file, h1]
  · intro fs db
    rfl

/-- Witness for the amended C9 at a concrete disallowed file. -/
theorem per_item_validation_reporting_witness :
    process_file (fun s => s) ⟨⟨[], 1⟩, [], [], []⟩ ⟨"evil.exe", "u1", some "x", 3⟩ =
      ⟨⟨[], 1⟩, [], [], [⟨"evil.exe", "File type not allowed"⟩]⟩ :=
  (per_item_validation_reporting (fun s => s) ⟨⟨[], 1⟩, [], [], []⟩
    ⟨"evil.exe", "u1", some "x", 3⟩).1 (by decide) (by decide)

/-! ## Extraction failure (C8) -/

/-- C8 counterexample: an allowed file whose extraction fails is NOT
always stored — when a live document already carries the empty-text
fingerprint, the upload is deduplicated against it and reported as
skipped, leaving the store unchanged. -/
theorem extraction_failure_counterexample :
    (upload_files (fun s => s) [⟨"b.pdf", "u1", none, 20⟩] dbEmptyContent).uploaded = [] ∧
    (upload_files (fun s => s) [⟨"b.pdf", "u1", none, 20⟩] dbEmptyContent).db = dbEmptyContent ∧
    (upload_files (fun s => s) [⟨"b.pdf", "u1", none, 20⟩] dbEmptyContent).skipped =
      [⟨"b.pdf", "duplicate", "first.pdf", 10⟩] ∧
    (upload_files (fun s => s) [⟨"b.pdf", "u1", none, 20⟩] dbEmptyContent).errors = [] := by
  refine ⟨?_, ?_, ?_, ?_⟩ <;> decide

/-- C8 amended: for an allowed file whose extraction fails, the upload
proceeds with empty text and is never reported as an error; when no live
document carries the empty-text fingerprint the document is stored with
empty extracted text, and otherwise it is reported as skipped, a
duplicate of the existing empty-text document, with the store
unchanged. -/
theorem extraction_failure_degraded :
    ∀ (sec : String → String) (st : UploadState) (f : UploadFile),
      f.extract_result = none → f.filename ≠ "" →
      allowed_file f.filename = true →
      (sec f.filename).data.contains '.' = true →
      (process_file sec st f).errors = st.errors ∧
      ((∀ r ∈ st.db.rows, r.content_hash ≠ calculate_content_hash "") →
        (process_file sec st f).db.rows = st.db.rows ++
          [⟨st.db.next_id,
            f.uuid ++ "." ++ asciiLower (extAfterLastDot (sec f.filename)),
            sec f.filename,
            "uploads/" ++ (f.uuid ++ "." ++
              asciiLower (extAfterLastDot (sec f.filename))),
            asciiLower (extAfterLastDot (sec f.filename)), "",
            calculate_content_hash "", f.time⟩] ∧
        (process_file sec st f).uploaded =
          st.uploaded ++ [⟨st.db.next_id, sec f.filename⟩]) ∧
      ((∃ r ∈ st.db.rows, r.content_hash = calculate_content_hash "") →
        (process_file sec st f).db = st.db ∧
        (process_file sec st f).skipped.length = st.skipped.length + 1) := by
  intro sec st f he hn ha hd
  have b1 : (f.filename == "") = false := by simpa using hn
  have hd2 : '.' ∈ (sec f.filename).data := by simpa using hd
  cases hf : st.db.rows.find?
      (fun r => r.content_hash == calculate_content_hash "") with
  | none =>
    refine ⟨?_, ?_, ?_⟩
    · simp [process_file, b1, ha, hd, hd2, he, extract_text_from_file,
        check_duplicate, hf, insert_document]
    · intro _
      constructor <;>
        simp [process_file, b1, ha, hd, hd2, he, extract_text_from_file,
          check_duplicate, hf, insert_document]
    · rintro ⟨r, hr, hh⟩
      exact absurd (by simpa using hh)
        (by simpa using List.find?_eq_none.1 hf r hr)
  | some r =>
    refine ⟨?_, ?_, ?_⟩
    · simp [process_file, b1, ha, hd, hd2, he, extract_text_from_file,
        check_duplicate, hf]
    · intro hfree
      exact absurd (by simpa using List.find?_some hf)
        (hfree r (List.mem_of_find?_eq_some hf))
    · intro _
      constructor <;>
        simp [process_file, b1, ha, hd, hd2, he, extract_text_from_file,
          check_duplicate, hf]

/-- Witness for the amended C8 at a concrete failing extraction over an
empty store. -/
theorem extraction_failure_degraded_witness :
    (process_file (fun s => s) ⟨⟨[], 1⟩, [], [], []⟩ ⟨"b.pdf", "u1", none, 20⟩).errors = [] ∧
    ((∀ r ∈ ([] : List DocRow), r.content_hash ≠ calculate_content_hash "") →
      (process_file (fun s => s) ⟨⟨[], 1⟩, [], [], []⟩ ⟨"b.pdf", "u1", none, 20⟩).db.rows = [] ++
        [⟨1, "u1" ++ "." ++ asciiLower (extAfterLastDot "b.pdf"), "b.pdf",
          "uploads/" ++ ("u1" ++ "." ++ asciiLower (extAfterLastDot "b.pdf")),
          asciiLower (extAfterLastDot "b.pdf"), "",
          calculate_content_hash "", 20⟩] ∧
      (process_file (fun s => s) ⟨⟨[], 1⟩, [], [], []⟩ ⟨"b.pdf", "u1", none, 20⟩).uploaded =
        [] ++ [⟨1, "b.pdf"⟩]) ∧
    ((∃ r ∈ ([] : List DocRow), r.content_hash = calculate_content_hash "") →
      (process_file (fun s => s) ⟨⟨[], 1⟩, [], [], []⟩ ⟨"b.pdf", "u1", none, 20⟩).db = ⟨[], 1⟩ ∧
      (process_file (fun s => s) ⟨⟨[], 1⟩, [], [], []⟩ ⟨"b.pdf", "u1", none, 20⟩).skipped.length = 0 + 1) :=
  extraction_failure_degraded (fun s => s) ⟨⟨[], 1⟩, [], [], []⟩
    ⟨"b.pdf", "u1", none, 20⟩ rfl (by decide) (by decide) (by decide)

/-! ## Uniqueness invariant (C1) -/

/-- One ingestion step preserves the uniqueness of fingerprints: a row is
inserted only when `check_duplicate` saw no stored row with its hash. -/
lemma process_file_NoDupHash (sec : String → String) (st : UploadState)
    (f : UploadFile) (h : NoDupHash st.db) :
    NoDupHash (process_file sec st f).db := by
  by_cases b1 : (f.filename == "") = true
  · simpa [process_file, b1] using h
  · by_cases b2 : allowed_file f.filename = true
    · by_cases b3 : '.' ∈ (sec f.filename).data
      · cases hf : st.db.rows.find?
            (fun r => r.content_hash ==
              calculate_content_hash (extract_text_from_file f.extract_result)) with
        | some r =>
          simpa [process_file, b1, b2, b3, check_duplicate, hf] using h
        | none =>
          have hnew : NoDupHash
              ⟨st.db.rows ++
                 [⟨st.db.next_id,
                   f.uuid ++ "." ++ asciiLower (extAfterLastDot (sec f.filename)),
                   sec f.filename,
                   "uploads/" ++ (f.uuid ++ "." ++
                     asciiLower (extAfterLastDot (sec f.filename))),
                   asciiLower (extAfterLastDot (sec f.filename)),
                   extract_text_from_file f.extract_result,
                   calculate_content_hash (extract_text_from_file f.extract_result),
                   f.time⟩],
                st.db.next_id + 1⟩ := by
            rw [NoDupHash, List.pairwise_append]
            refine ⟨h, by simp, ?_⟩
            intro a ha b hb
            rw [List.mem_singleton] at hb
            subst hb
            simpa using List.find?_eq_none.1 hf a ha
          simpa [process_file, b1, b2, b3, check_duplicate, hf,
            insert_document] using hnew
      · simpa [process_file, b1, b2, b3] using h
    · simpa [process_file, b1, b2] using h

/-- The invariant is preserved along a whole batch. -/
lemma foldl_process_file_NoDupHash (sec : String → String)
    (files : List UploadFile) :
    ∀ st : UploadState, NoDupHash st.db →
      NoDupHash (files.foldl (process_file sec) st).db := by
  induction files with
  | nil => intro st h; exact h
  | cons f fs ih =>
    intro st h
    exact ih _ (process_file_NoDupHash sec st f h)

/-- C1: sequential ingestion keeps the store free of duplicate
fingerprints — from any store satisfying the invariant, processing any
batch of uploads leaves it satisfying the invariant — and uploading the
same extracted content twice into a store not yet holding it stores
exactly one document and reports exactly one skipped duplicate
referencing the first upload's name and date, regardless of the two
original filenames. -/
theorem ingestion_uniqueness :
    (∀ (sec : String → String) (files : List UploadFile) (db : DocDb),
      NoDupHash db → NoDupHash (upload_files sec files db).db) ∧
    (∀ (sec : String → String) (f1 f2 : UploadFile) (c : String)
        (db : DocDb),
      f1.extract_result = some c → f2.extract_result = some c →
      f1.filename ≠ "" → allowed_file f1.filename = true →
      '.' ∈ (sec f1.filename).data →
      f2.filename ≠ "" → allowed_file f2.filename = true →
      '.' ∈ (sec f2.filename).data →
      (∀ r ∈ db.rows, r.content_hash ≠ calculate_content_hash c) →
      (upload_files sec [f1, f2] db).uploaded =
        [⟨db.next_id, sec f1.filename⟩] ∧
      (upload_files sec [f1, f2] db).skipped =
        [⟨sec f2.filename, "duplicate", sec f1.filename, f1.time⟩] ∧
      (upload_files sec [f1, f2] db).db.rows.length =
        db.rows.length + 1 ∧
      (upload_files sec [f1, f2] db).errors = []) := by
  constructor
  · intro sec files db h
    exact foldl_process_file_NoDupHash sec files ⟨db, [], [], []⟩ h
  · intro sec f1 f2 c db he1 he2 hn1 ha1 hd1 hn2 ha2 hd2 hfree
    have b1 : (f1.filename == "") = false := by simpa using hn1
    have b2 : (f2.filename == "") = false := by simpa using hn2
    have hf1 : db.rows.find?
        (fun r => r.content_hash == calculate_content_hash c) = none := by
      rw [List.find?_eq_none]
      intro r hr
      simpa using hfree r hr
    refine ⟨?_, ?_, ?_, ?_⟩ <;>
      simp [upload_files, process_file, b1, b2, ha1, ha2, hd1, hd2,
        he1, he2, extract_text_from_file, check_duplicate, hf1,
        insert_document, List.find?_append]

/-- Witness for C1: the same content uploaded twice under different names
into an empty store. -/
theorem ingestion_uniqueness_witness :
    (upload_files (fun s => s)
      [⟨"a.pdf", "u1", some "T", 1⟩, ⟨"b.pdf", "u2", some "T", 2⟩]
      ⟨[], 1⟩).uploaded = [⟨1, "a.pdf"⟩] ∧
    (upload_files (fun s => s)
      [⟨"a.pdf", "u1", some "T", 1⟩, ⟨"b.pdf", "u2", some "T", 2⟩]
      ⟨[], 1⟩).skipped = [⟨"b.pdf", "duplicate", "a.pdf", 1⟩] ∧
    (upload_files (fun s => s)
      [⟨"a.pdf", "u1", some "T", 1⟩, ⟨"b.pdf", "u2", some "T", 2⟩]
      ⟨[], 1⟩).db.rows.length = ([] : List DocRow).length + 1 ∧
    (upload_files (fun s => s)
      [⟨"a.pdf", "u1", some "T", 1⟩, ⟨"b.pdf", "u2", some "T", 2⟩]
      ⟨[], 1⟩).errors = [] :=
  ingestion_uniqueness.2 (fun s => s) ⟨"a.pdf", "u1", some "T", 1⟩
    ⟨"b.pdf", "u2", some "T", 2⟩ "T" ⟨[], 1⟩ rfl rfl (by decide) (by decide)
    (by decide) (by decide) (by decide) (by decide) (by simp)
